import Mathlib

/-!
Verification of the iterator demonstrations in `src/main.rs` and of the
grid-transform engine the specification distills from
`update_vector_with_iterators`.

Modelling conventions:
* Rust `Vec<usize>` becomes `List Nat`; machine integers never overflow in
  the modelled code (values are bounded well below `2^32` / `2^64`), so
  `Nat` is used without explicit wraparound.
* `iter_mut().enumerate().for_each(|(i,v)| *v = e(i))` — an in-place
  overwrite of each cell from its index — becomes `List.mapIdx`.
* Rayon's `par_iter_mut` hands each worker a contiguous, non-overlapping
  sub-slice; it is modelled by an arbitrary partition of the buffer into
  contiguous chunks, each transformed with its global offset and the
  results concatenated in order.
-/

namespace RustIterators

/-- The `OneToTen` struct from `src/main.rs`: a cursor holding the last
value produced.  The source field is `u32`; it never exceeds 10, so `Nat`
models it exactly. -/
structure OneToTen where
  current : Nat
  deriving Repr, DecidableEq

/-- `OneToTen::new()` starts the cursor at 0. -/
def OneToTen.new : OneToTen := ⟨0⟩

/-- `Iterator::next` for `OneToTen`: while `current < 10`, increment and
yield the incremented value; otherwise yield `None` and leave the state
unchanged.  Returns the yielded item together with the updated state. -/
def OneToTen.next (s : OneToTen) : Option Nat × OneToTen :=
  if s.current < 10 then (some (s.current + 1), ⟨s.current + 1⟩) else (none, s)

/-- The iterator state after `n` calls to `next`, starting from `new`. -/
def OneToTen.stateAfter : Nat → OneToTen
  | 0 => OneToTen.new
  | n + 1 => (OneToTen.stateAfter n).next.2

/-- The item yielded by the `(n+1)`-st call to `next` (0-indexed: call `n`). -/
def OneToTen.yieldAt (n : Nat) : Option Nat :=
  (OneToTen.stateAfter n).next.1

/-- Rust's `str::split(sep)` on a character separator, over the string's
character sequence: segments between occurrences of `sep`, with empty
segments kept for leading, trailing or adjacent separators. -/
def splitChar (sep : Char) : List Char → List (List Char)
  | [] => [[]]
  | c :: rest =>
    match splitChar sep rest with
    | [] => [[]]
    | w :: ws => if c = sep then [] :: w :: ws else (c :: w) :: ws

/-- `string_manipulations` from `src/main.rs`: split the string on the
space character, reverse the segment sequence, and collect into a `String`
(Rust's `collect::<String>()` concatenates the pieces with no separator). -/
def reversedSplitCollect (s : String) : String :=
  ⟨((splitChar ' ' s.data).reverse).flatten⟩

namespace GridEngine

/-- `let row = |p| p / n_col` from `update_vector_with_iterators`. -/
def rowOf (cols p : Nat) : Nat := p / cols

/-- `let col = |p| p % n_col` from `update_vector_with_iterators`. -/
def colOf (cols p : Nat) : Nat := p % cols

/-- `let mut array: Vec<_> = (1..=n).collect()`: the ascending seed
sequence `1, 2, …, n`. -/
def seedVec (n : Nat) : List Nat :=
  (List.range n).map (· + 1)

/-- The sequential pass
`array.iter_mut().enumerate().for_each(|(i,v)| *v = f(row(i), col(i)))`:
every cell is overwritten with `f` of its (row, col) position, the old
value being ignored. -/
def transform_sequential (cols : Nat) (f : Nat → Nat → Nat) (a : List Nat) : List Nat :=
  a.mapIdx fun i _ => f (rowOf cols i) (colOf cols i)

/-- One rayon worker's action on its contiguous sub-slice: the slice
starts at global linear index `offset`, and each cell is overwritten with
`f` of the (row, col) position of its global index. -/
def transform_worker (cols : Nat) (f : Nat → Nat → Nat) (offset : Nat)
    (chunk : List Nat) : List Nat :=
  chunk.mapIdx fun j _ => f (rowOf cols (offset + j)) (colOf cols (offset + j))

/-- Run the workers over a list of contiguous chunks, accumulating the
global offset; the per-chunk results are reassembled in order, which is
what writing through disjoint sub-slices of one buffer amounts to. -/
def runWorkers (cols : Nat) (f : Nat → Nat → Nat) : Nat → List (List Nat) → List Nat
  | _, [] => []
  | offset, c :: cs => transform_worker cols f offset c ++ runWorkers cols f (offset + c.length) cs

/-- The parallel pass
`array.par_iter_mut().enumerate().for_each(|(i,v)| *v = f(row(i), col(i)))`,
modelled over an arbitrary decomposition of the buffer into contiguous
chunks (rayon chooses the actual chunk boundaries at run time). -/
def transform_parallel (cols : Nat) (f : Nat → Nat → Nat)
    (chunks : List (List Nat)) : List Nat :=
  runWorkers cols f 0 chunks

/-- The error taxonomy of the specification (§7).  Modelled from the spec:
`src/main.rs` defines no error type. -/
inductive GridError where
  | InvalidDimensions
  | InvalidWorkerCount
  deriving Repr, DecidableEq

/-- Modelled from the spec: the source hard-codes a 1000×1000 grid and has
no `new(rows, cols, seed_strategy)` constructor.  Per §4.1/§7, construction
fails with `InvalidDimensions` when `rows <= 0` or `cols <= 0` (for `Nat`,
when either is 0) and otherwise allocates `rows*cols` cells seeded with
the ascending sequence `1, 2, 3, …`. -/
def new (rows cols : Nat) : Except GridError (List Nat) :=
  if rows = 0 ∨ cols = 0 then .error .InvalidDimensions
  else .ok (seedVec (rows * cols))

/-- Balanced chunk size for `w` workers over `n` cells: `⌈n / w⌉`. -/
def chunkSize (w n : Nat) : Nat := (n + w - 1) / w

/-- Split a buffer into contiguous chunks of `k` cells each (the last chunk
may be shorter); with `k = 0` no chunks are produced. -/
def chunkList (k : Nat) (a : List Nat) : List (List Nat) :=
  if h : k = 0 ∨ a = [] then [] else a.take k :: chunkList k (a.drop k)
termination_by a.length
decreasing_by
  push_neg at h
  have h0 : 0 < k := Nat.pos_of_ne_zero h.1
  have h1 : 0 < a.length := List.length_pos.mpr h.2
  simp only [List.length_drop]
  omega

/-- Modelled from the spec: the source calls rayon's default scheduler and
takes no worker-count argument.  Per §4.1/§7, a supplied worker count of
zero (the only non-positive `Nat`) fails with `InvalidWorkerCount`; a
positive count `w` partitions the buffer into contiguous balanced chunks
for `w` workers and runs the parallel transform; with no count supplied
the runtime default `defaultW` is used instead. -/
def transform_parallel_api (defaultW : Nat) (cols : Nat) (f : Nat → Nat → Nat)
    (a : List Nat) (workers : Option Nat) : Except GridError (List Nat) :=
  match workers with
  | none => .ok (transform_parallel cols f (chunkList (chunkSize defaultW a.length) a))
  | some w =>
    if w = 0 then .error .InvalidWorkerCount
    else .ok (transform_parallel cols f (chunkList (chunkSize w a.length) a))

end GridEngine

/-! ### Characterisation lemmas -/

/-- `mapIdx` with an index-only function is a map over the index range. -/
theorem mapIdx_const_eq_range_map (g : Nat → Nat) (a : List Nat) :
    (a.mapIdx fun i _ => g i) = (List.range a.length).map g := by
  apply List.ext_get
  · simp
  · intro n h1 h2
    simp only [List.length_mapIdx] at h1
    rw [List.get_mapIdx a _ n h1]
    simp

theorem transform_sequential_eq_range_map (cols : Nat) (f : Nat → Nat → Nat) (a : List Nat) :
    GridEngine.transform_sequential cols f a =
      (List.range a.length).map fun i => f (GridEngine.rowOf cols i) (GridEngine.colOf cols i) :=
  mapIdx_const_eq_range_map _ a

theorem transform_worker_eq_range_map (cols : Nat) (f : Nat → Nat → Nat) (offset : Nat)
    (c : List Nat) :
    GridEngine.transform_worker cols f offset c =
      (List.range c.length).map fun j =>
        f (GridEngine.rowOf cols (offset + j)) (GridEngine.colOf cols (offset + j)) :=
  mapIdx_const_eq_range_map _ c

theorem length_transform_sequential (cols : Nat) (f : Nat → Nat → Nat) (a : List Nat) :
    (GridEngine.transform_sequential cols f a).length = a.length := by
  rw [transform_sequential_eq_range_map]; simp

theorem transform_worker_append (cols : Nat) (f : Nat → Nat → Nat) (offset : Nat)
    (c d : List Nat) :
    GridEngine.transform_worker cols f offset (c ++ d) =
      GridEngine.transform_worker cols f offset c ++
        GridEngine.transform_worker cols f (offset + c.length) d := by
  simp only [transform_worker_eq_range_map, List.length_append, List.range_add,
    List.map_append, List.map_map]
  congr 1
  apply List.map_congr_left
  intro j _
  simp [Function.comp, Nat.add_comm, Nat.add_assoc, Nat.add_left_comm]

theorem runWorkers_eq_worker_join (cols : Nat) (f : Nat → Nat → Nat) :
    ∀ (offset : Nat) (cs : List (List Nat)),
      GridEngine.runWorkers cols f offset cs =
        GridEngine.transform_worker cols f offset cs.flatten
  | _, [] => by simp [GridEngine.runWorkers, GridEngine.transform_worker]
  | offset, c :: cs => by
    rw [GridEngine.runWorkers, List.flatten_cons, transform_worker_append,
      runWorkers_eq_worker_join cols f (offset + c.length) cs]

theorem transform_worker_zero (cols : Nat) (f : Nat → Nat → Nat) (a : List Nat) :
    GridEngine.transform_worker cols f 0 a = GridEngine.transform_sequential cols f a := by
  simp [GridEngine.transform_worker, GridEngine.transform_sequential]

theorem transform_parallel_of_flatten (cols : Nat) (f : Nat → Nat → Nat)
    (a : List Nat) (chunks : List (List Nat)) (h : chunks.flatten = a) :
    GridEngine.transform_parallel cols f chunks = GridEngine.transform_sequential cols f a := by
  rw [GridEngine.transform_parallel, runWorkers_eq_worker_join, h, transform_worker_zero]

theorem chunkList_flatten (k : Nat) (hk : k ≠ 0) (a : List Nat) :
    (GridEngine.chunkList k a).flatten = a := by
  unfold GridEngine.chunkList
  by_cases h : a = []
  · simp [h]
  · rw [dif_neg (by simp [hk, h]), List.flatten_cons,
      chunkList_flatten k hk (a.drop k), List.take_append_drop]
termination_by a.length
decreasing_by
  have h1 : 0 < a.length := List.length_pos.mpr h
  have h0 : 0 < k := Nat.pos_of_ne_zero hk
  simp only [List.length_drop]
  omega

theorem getD_transform_sequential (cols : Nat) (f : Nat → Nat → Nat) (a : List Nat)
    (i : Nat) (h : i < a.length) :
    (GridEngine.transform_sequential cols f a).getD i 0 =
      f (GridEngine.rowOf cols i) (GridEngine.colOf cols i) := by
  rw [transform_sequential_eq_range_map, List.getD_eq_getElem _ _ (by simpa using h)]
  simp

theorem length_seedVec (n : Nat) : (GridEngine.seedVec n).length = n := by
  simp [GridEngine.seedVec]

theorem getD_seedVec (n i : Nat) (h : i < n) : (GridEngine.seedVec n).getD i 0 = i + 1 := by
  rw [GridEngine.seedVec, List.getD_eq_getElem _ _ (by simpa using h)]
  simp

theorem next_mk (c : Nat) :
    OneToTen.next ⟨c⟩ = if c < 10 then (some (c + 1), ⟨c + 1⟩) else (none, ⟨c⟩) := rfl

theorem stateAfter_current (n : Nat) : (OneToTen.stateAfter n).current = min n 10 := by
  induction n with
  | zero => rfl
  | succ n ih =>
    rw [OneToTen.stateAfter, OneToTen.next]
    by_cases h : (OneToTen.stateAfter n).current < 10
    · rw [ih] at h ⊢
      simp only [if_pos h]
      omega
    · rw [ih] at h ⊢
      simp only [if_neg h]
      omega

theorem stateAfter_eq (n : Nat) : OneToTen.stateAfter n = ⟨min n 10⟩ := by
  have h := stateAfter_current n
  rw [← h]

/-! ### The claims -/

/-- C1: for every grid of positive dimensions and every pure transform
function `f`, the parallel transform — run over any decomposition of the
buffer into contiguous worker chunks, hence for any worker count and any
chunk boundaries — produces exactly the contents the sequential transform
produces on a grid of the same dimensions and initial contents. -/
theorem C1_parallel_sequential_equivalence (rows cols : Nat) (f : Nat → Nat → Nat)
    (a : List Nat) (chunks : List (List Nat)) (_hrows : 0 < rows) (_hcols : 0 < cols)
    (_hdim : a.length = rows * cols) (hpart : chunks.flatten = a) :
    GridEngine.transform_parallel cols f chunks = GridEngine.transform_sequential cols f a :=
  transform_parallel_of_flatten cols f a chunks hpart

theorem C1_parallel_sequential_equivalence_witness :
    0 < 2 ∧ 0 < 3 ∧ (GridEngine.seedVec 6).length = 2 * 3 ∧
      ([[1, 2], [3], [4, 5, 6]] : List (List Nat)).flatten = GridEngine.seedVec 6 ∧
      GridEngine.transform_parallel 3 (fun r c => r * c) [[1, 2], [3], [4, 5, 6]] =
        GridEngine.transform_sequential 3 (fun r c => r * c) (GridEngine.seedVec 6) :=
  ⟨by decide, by decide, by decide, by decide,
    C1_parallel_sequential_equivalence 2 3 (fun r c => r * c) (GridEngine.seedVec 6)
      [[1, 2], [3], [4, 5, 6]] (by decide) (by decide) (by decide) (by decide)⟩

/-- C2: for every grid with `cols > 0`, a linear index `i < rows * cols`
maps to `(row, col) = (i / cols, i % cols)` with `row < rows` and
`col < cols`; in particular index 345678 of a 1000×1000 grid maps to row
345, column 678. -/
theorem C2_index_mapping (rows cols i : Nat) (hcols : 0 < cols) (hi : i < rows * cols) :
    (GridEngine.rowOf cols i < rows ∧ GridEngine.colOf cols i < cols) ∧
      GridEngine.rowOf 1000 345678 = 345 ∧ GridEngine.colOf 1000 345678 = 678 :=
  ⟨⟨(Nat.div_lt_iff_lt_mul hcols).mpr hi, Nat.mod_lt _ hcols⟩,
    by norm_num [GridEngine.rowOf], by norm_num [GridEngine.colOf]⟩

theorem C2_index_mapping_witness :
    0 < 1000 ∧ 345678 < 1000 * 1000 ∧
      ((GridEngine.rowOf 1000 345678 < 1000 ∧ GridEngine.colOf 1000 345678 < 1000) ∧
        GridEngine.rowOf 1000 345678 = 345 ∧ GridEngine.colOf 1000 345678 = 678) :=
  ⟨by norm_num, by norm_num, C2_index_mapping 1000 1000 345678 (by norm_num) (by norm_num)⟩

/-- C3: the sequential transform is exactly the map of
`f (i / cols) (i % cols)` over the ascending index range
`0..rows*cols`; its result keeps the grid's length, holds
`f (i / cols) (i % cols)` at every index `i` (each cell written exactly
once), and does not depend on the grid's initial contents — the final
state is determined by `f` alone. -/
theorem C3_sequential_transform (rows cols : Nat) (f : Nat → Nat → Nat) (a : List Nat)
    (_hrows : 0 < rows) (_hcols : 0 < cols) (hdim : a.length = rows * cols) :
    GridEngine.transform_sequential cols f a =
        (List.range (rows * cols)).map
          (fun i => f (GridEngine.rowOf cols i) (GridEngine.colOf cols i)) ∧
      (GridEngine.transform_sequential cols f a).length = rows * cols ∧
      (∀ i, i < rows * cols →
        (GridEngine.transform_sequential cols f a).getD i 0 =
          f (GridEngine.rowOf cols i) (GridEngine.colOf cols i)) ∧
      ∀ b : List Nat, b.length = rows * cols →
        GridEngine.transform_sequential cols f b = GridEngine.transform_sequential cols f a := by
  refine ⟨by rw [transform_sequential_eq_range_map, hdim], ?_, ?_, ?_⟩
  · rw [length_transform_sequential, hdim]
  · intro i hi
    exact getD_transform_sequential cols f a i (by rw [hdim]; exact hi)
  · intro b hb
    rw [transform_sequential_eq_range_map, transform_sequential_eq_range_map, hb, hdim]

theorem C3_sequential_transform_witness :
    0 < 2 ∧ 0 < 3 ∧ (GridEngine.seedVec 6).length = 2 * 3 ∧
      (GridEngine.transform_sequential 3 (fun r c => r + c) (GridEngine.seedVec 6)).length =
        2 * 3 :=
  ⟨by decide, by decide, by decide,
    (C3_sequential_transform 2 3 (fun r c => r + c) (GridEngine.seedVec 6)
      (by decide) (by decide) (by decide)).2.1⟩

/-- C4: on a 1000×1000 grid seeded `1..=1000000`, the sequential transform
with `f(row, col) = row * col` leaves 0 at linear indices 0, 1 and 1000,
and `999 * 999 = 998001` at index 999999. -/
theorem C4_end_to_end_cells :
    (GridEngine.transform_sequential 1000 (fun r c => r * c)
        (GridEngine.seedVec (1000 * 1000))).getD 0 0 = 0 ∧
      (GridEngine.transform_sequential 1000 (fun r c => r * c)
        (GridEngine.seedVec (1000 * 1000))).getD 1 0 = 0 ∧
      (GridEngine.transform_sequential 1000 (fun r c => r * c)
        (GridEngine.seedVec (1000 * 1000))).getD 1000 0 = 0 ∧
      (GridEngine.transform_sequential 1000 (fun r c => r * c)
        (GridEngine.seedVec (1000 * 1000))).getD 999999 0 = 998001 := by
  refine ⟨?_, ?_, ?_, ?_⟩ <;>
  · rw [getD_transform_sequential _ _ _ _ (by rw [length_seedVec]; norm_num)]
    norm_num [GridEngine.rowOf, GridEngine.colOf]

/-- C5: for all positive dimensions, the seed buffer has exactly
`rows * cols` cells and the cell at linear index `i` holds `i + 1`. -/
theorem C5_seed_sequence (rows cols : Nat) (_hrows : 0 < rows) (_hcols : 0 < cols) :
    (GridEngine.seedVec (rows * cols)).length = rows * cols ∧
      ∀ i, i < rows * cols → (GridEngine.seedVec (rows * cols)).getD i 0 = i + 1 :=
  ⟨length_seedVec _, fun i hi => getD_seedVec _ i hi⟩

theorem C5_seed_sequence_witness :
    0 < 2 ∧ 0 < 3 ∧ (GridEngine.seedVec (2 * 3)).getD 4 0 = 4 + 1 :=
  ⟨by decide, by decide, (C5_seed_sequence 2 3 (by decide) (by decide)).2 4 (by decide)⟩

/-- C6 (modelled from the spec — the source has no constructor):
construction fails with `InvalidDimensions` when a dimension is zero, in
particular for `new 0 5` and `new 5 0`, and for positive dimensions
succeeds with the seeded grid, which satisfies the grid invariant:
`rows * cols` cells, each linear index mapping to an in-range
`(row, col)`. -/
theorem C6_invalid_dimensions (rows cols : Nat) (hrows : 0 < rows) (hcols : 0 < cols) :
    GridEngine.new 0 5 = .error .InvalidDimensions ∧
      GridEngine.new 5 0 = .error .InvalidDimensions ∧
      GridEngine.new rows cols = .ok (GridEngine.seedVec (rows * cols)) ∧
      ∀ g, GridEngine.new rows cols = .ok g → g.length = rows * cols ∧
        ∀ i, i < g.length →
          GridEngine.rowOf cols i < rows ∧ GridEngine.colOf cols i < cols := by
  have hok : GridEngine.new rows cols = .ok (GridEngine.seedVec (rows * cols)) := by
    rw [GridEngine.new, if_neg (by omega)]
  refine ⟨rfl, rfl, hok, ?_⟩
  intro g hg
  rw [hok] at hg
  injection hg with hg
  subst hg
  refine ⟨length_seedVec _, fun i hi => ?_⟩
  rw [length_seedVec] at hi
  exact ⟨(Nat.div_lt_iff_lt_mul hcols).mpr hi, Nat.mod_lt _ hcols⟩

theorem C6_invalid_dimensions_witness :
    0 < 4 ∧ 0 < 7 ∧ GridEngine.new 0 5 = .error .InvalidDimensions ∧
      GridEngine.new 5 0 = .error .InvalidDimensions ∧
      GridEngine.new 4 7 = .ok (GridEngine.seedVec (4 * 7)) :=
  ⟨by decide, by decide,
    (C6_invalid_dimensions 4 7 (by decide) (by decide)).1,
    (C6_invalid_dimensions 4 7 (by decide) (by decide)).2.1,
    (C6_invalid_dimensions 4 7 (by decide) (by decide)).2.2.1⟩

/-- C7 (modelled from the spec — the source takes no worker-count
argument): a supplied worker count of zero, the only non-positive `Nat`,
fails with `InvalidWorkerCount`; every positive supplied worker count
succeeds, and by the equivalence law returns exactly the sequential
transform's result. -/
theorem C7_worker_count (defaultW cols : Nat) (f : Nat → Nat → Nat) (a : List Nat)
    (w : Nat) (hw : 0 < w) :
    GridEngine.transform_parallel_api defaultW cols f a (some 0) =
        .error .InvalidWorkerCount ∧
      GridEngine.transform_parallel_api defaultW cols f a (some w) =
        .ok (GridEngine.transform_sequential cols f a) := by
  refine ⟨rfl, ?_⟩
  show (if w = 0 then _ else _) = _
  rw [if_neg (by omega)]
  congr 1
  apply transform_parallel_of_flatten
  by_cases ha : a = []
  · subst ha
    rw [GridEngine.chunkList, dif_pos (Or.inr rfl)]
    rfl
  · apply chunkList_flatten
    have hlen : 0 < a.length := List.length_pos.mpr ha
    have h1 : 1 ≤ (a.length + w - 1) / w :=
      (Nat.le_div_iff_mul_le hw).mpr (by omega)
    rw [GridEngine.chunkSize]
    omega

theorem C7_worker_count_witness :
    0 < 2 ∧
      GridEngine.transform_parallel_api 4 3 (fun r c => r * c) (GridEngine.seedVec 6)
          (some 0) = .error .InvalidWorkerCount ∧
      GridEngine.transform_parallel_api 4 3 (fun r c => r * c) (GridEngine.seedVec 6)
          (some 2) =
        .ok (GridEngine.transform_sequential 3 (fun r c => r * c) (GridEngine.seedVec 6)) :=
  ⟨by decide, C7_worker_count 4 3 (fun r c => r * c) (GridEngine.seedVec 6) 2 (by decide)⟩

/-- C8: the transform with `f(row, col) = row * col` is idempotent:
running the sequential pass again on an already-transformed grid leaves
every cell unchanged, and the parallel pass run after the sequential pass
(over any chunk decomposition of the transformed buffer) rewrites every
cell with the value it already holds. -/
theorem C8_transform_idempotent (cols : Nat) (a : List Nat) (chunks : List (List Nat))
    (hpart : chunks.flatten = GridEngine.transform_sequential cols (fun r c => r * c) a) :
    GridEngine.transform_sequential cols (fun r c => r * c)
        (GridEngine.transform_sequential cols (fun r c => r * c) a) =
      GridEngine.transform_sequential cols (fun r c => r * c) a ∧
      GridEngine.transform_parallel cols (fun r c => r * c) chunks =
        GridEngine.transform_sequential cols (fun r c => r * c) a := by
  have hidem : GridEngine.transform_sequential cols (fun r c => r * c)
      (GridEngine.transform_sequential cols (fun r c => r * c) a) =
        GridEngine.transform_sequential cols (fun r c => r * c) a := by
    have h1 := transform_sequential_eq_range_map cols (fun r c => r * c)
      (GridEngine.transform_sequential cols (fun r c => r * c) a)
    rw [h1, length_transform_sequential, ← transform_sequential_eq_range_map]
  exact ⟨hidem, (transform_parallel_of_flatten _ _ _ _ hpart).trans hidem⟩

theorem C8_transform_idempotent_witness :
    ([[0, 0, 0], [0, 1, 2]] : List (List Nat)).flatten =
        GridEngine.transform_sequential 3 (fun r c => r * c) (GridEngine.seedVec 6) ∧
      GridEngine.transform_sequential 3 (fun r c => r * c)
          (GridEngine.transform_sequential 3 (fun r c => r * c) (GridEngine.seedVec 6)) =
        GridEngine.transform_sequential 3 (fun r c => r * c) (GridEngine.seedVec 6) :=
  ⟨by decide,
    (C8_transform_idempotent 3 (GridEngine.seedVec 6) [[0, 0, 0], [0, 1, 2]] (by decide)).1⟩

/-- C9: the `OneToTen` iterator started from `new` yields `n + 1` on its
`(n+1)`-st call to `next` for the first ten calls and `none` on every
later call; once exhausted the cursor stays at 10, so it never yields
again. -/
theorem C9_one_to_ten_yields (n : Nat) :
    OneToTen.yieldAt n = (if n < 10 then some (n + 1) else none) ∧
      (10 ≤ n → OneToTen.stateAfter n = OneToTen.mk 10) := by
  constructor
  · rw [OneToTen.yieldAt, stateAfter_eq, next_mk]
    by_cases h : n < 10
    · rw [Nat.min_eq_left (by omega), if_pos h, if_pos h]
    · rw [Nat.min_eq_right (by omega), if_neg (by omega), if_neg h]
  · intro h
    rw [stateAfter_eq]
    congr 1
    omega

theorem C9_one_to_ten_yields_witness :
    OneToTen.yieldAt 0 = some 1 ∧ OneToTen.yieldAt 9 = some 10 ∧
      OneToTen.yieldAt 12 = none ∧ OneToTen.stateAfter 12 = OneToTen.mk 10 :=
  ⟨by simpa using (C9_one_to_ten_yields 0).1, by simpa using (C9_one_to_ten_yields 9).1,
    by simpa using (C9_one_to_ten_yields 12).1, (C9_one_to_ten_yields 12).2 (by decide)⟩

/-- C10: splitting `"do re mi fa so la si do"` on spaces, reversing, and
collecting into a `String` concatenates the words in reverse order with
the separators dropped, giving `"dosilasofamiredo"` and not the
space-separated reversal. -/
theorem C10_reversed_split_collect :
    reversedSplitCollect "do re mi fa so la si do" = "dosilasofamiredo" ∧
      reversedSplitCollect "do re mi fa so la si do" ≠ "do si la so fa mi re do" := by
  exact ⟨by decide, by decide⟩

end RustIterators
